import Mathlib

/-
Shallow embedding of the BotFactory AI repository core
(src/ai.py and src/telegram_bot.py), with theorems checking the
natural-language specification against the code.

Strings from the Python side are modelled as `List Char`; Python string
operations (`replace`, `strip`, `split`, `in`, `startswith`, `lower`)
are embedded below with their Python semantics.  External collaborators
(the Gemini AI service, the Telegram HTTP API, the database) are
modelled as explicit parameters/oracles, as the spec treats them as
interfaces.
-/

/-- Python whitespace test for the characters relevant to `str.strip`
and `str.split()` (ASCII whitespace; the strings in this code base use
no exotic Unicode spaces). -/
def pySpace (c : Char) : Bool :=
  c = ' ' || c = '\t' || c = '\n' || c = '\x0d' || c = '\x0b' || c = '\x0c'

/-- Python `str.strip()`: drop leading and trailing whitespace. -/
def pyStrip (l : List Char) : List Char :=
  ((l.dropWhile pySpace).reverse.dropWhile pySpace).reverse

/-- Does `target` start with `pat`?  (Python `str.startswith`.) -/
def startsWithL : List Char → List Char → Bool
  | [], _ => true
  | _ :: _, [] => false
  | p :: ps, c :: cs => p = c && startsWithL ps cs

/-- Python `str.replace(old, rep)` for a non-empty pattern `old`:
replace non-overlapping occurrences left to right.  Structural recursion
on a fuel argument (one unit per consumed character) so that concrete
inputs evaluate in the kernel. -/
def pyReplaceAux (old rep : List Char) : Nat → List Char → List Char
  | 0, l => l
  | _ + 1, [] => []
  | fuel + 1, c :: cs =>
    if startsWithL old (c :: cs) then
      rep ++ pyReplaceAux old rep fuel (cs.drop (old.length - 1))
    else
      c :: pyReplaceAux old rep fuel cs

def pyReplace (old rep l : List Char) : List Char :=
  pyReplaceAux old rep l.length l

/-- Python `needle in haystack` for strings: substring containment. -/
def containsSub (needle hay : List Char) : Bool :=
  (List.range (hay.length + 1)).any fun i => startsWithL needle (hay.drop i)

/-- Python `str.lower()` (ASCII lowering; the knowledge-base keywords in
the code are ASCII). -/
def pyLower (l : List Char) : List Char := l.map Char.toLower

/-- Python `str.split(sep)` for a one-character separator: keeps empty
fields (accumulator-based). -/
def splitOnCharAux (sep : Char) : List Char → List Char → List (List Char)
  | [], acc => [acc.reverse]
  | c :: cs, acc =>
    if c = sep then acc.reverse :: splitOnCharAux sep cs []
    else splitOnCharAux sep cs (c :: acc)

def splitOnChar (sep : Char) (l : List Char) : List (List Char) :=
  splitOnCharAux sep l []

/-- Python `str.split()` with no argument: split on whitespace runs,
discarding empty fields. -/
def splitWsAux : List Char → List Char → List (List Char)
  | [], acc => if acc = [] then [] else [acc.reverse]
  | c :: cs, acc =>
    if pySpace c then
      if acc = [] then splitWsAux cs []
      else acc.reverse :: splitWsAux cs []
    else splitWsAux cs (c :: acc)

def splitWs (l : List Char) : List (List Char) := splitWsAux l []

/- ===================== src/ai.py ===================== -/

/-- The three fixed fallback sentences of `get_fallback_response`
(src/ai.py lines 112-116). -/
def fallbackUz : String :=
  "Salom! Men BotFactory AI botiman. Hozir AI xizmat sozlanmoqda. Tez orada sizga yordam bera olaman! 🤖"

def fallbackRu : String :=
  "Привет! Я BotFactory AI бот. Сейчас настраивается AI сервис. Скоро смогу помочь вам! 🤖"

def fallbackEn : String :=
  "Hello! I'm BotFactory AI bot. AI service is being configured now. I'll be able to help you soon! 🤖"

/-- `get_fallback_response` (src/ai.py lines 108-117): dictionary lookup
with the Uzbek sentence as the default for an unknown language code. -/
def get_fallback_response (language : String) : String :=
  if language = "uz" then fallbackUz
  else if language = "ru" then fallbackRu
  else if language = "en" then fallbackEn
  else fallbackUz

/-- Outcome of one call to the external Gemini collaborator
(`model.generate_content` followed by reading `response.text`):
either some step raised an exception, or it produced a text. -/
inductive AIOutcome where
  | failure
  | text (s : String)
deriving DecidableEq

/-- `get_ai_response` (src/ai.py lines 15-106), with the external AI
call abstracted as an `AIOutcome` oracle.  The whole body is wrapped in
`try/except` returning the fallback; `GEMINI_AVAILABLE = False` and an
empty `response.text` also return the fallback; a non-empty text is
returned as-is. -/
def get_ai_response (geminiAvailable : Bool) (outcome : AIOutcome)
    (user_language : String) : String :=
  if geminiAvailable = false then get_fallback_response user_language
  else
    match outcome with
    | AIOutcome.failure => get_fallback_response user_language
    | AIOutcome.text s =>
      if s = "" then get_fallback_response user_language else s

/-- The markdown-stripping passes of `validate_ai_response`
(src/ai.py line 251): `replace('**','').replace('*','').replace('`','')`. -/
def sanitizeResponse (s : List Char) : List Char :=
  pyReplace ['\x60'] [] (pyReplace ['*'] [] (pyReplace ['*', '*'] [] s))

/-- A character that is not one of the stripped markdown markers
(`*` or backtick); the sanitization passes delete exactly the
characters failing this predicate, in order, and nothing else. -/
def notMarker (c : Char) : Bool :=
  !(c = '*' || c = '\x60')

/-- `validate_ai_response` (src/ai.py lines 243-257): `None`/empty input
gives `None`; otherwise strip markdown markers, truncate to `max_length`
appending `"..."` when exceeded, and strip surrounding whitespace. -/
def validate_ai_response (response : Option (List Char)) (max_length : Nat) :
    Option (List Char) :=
  match response with
  | none => none
  | some s =>
    if s = [] then none
    else
      let s3 := sanitizeResponse s
      let s4 := if max_length < s3.length then s3.take max_length ++ ['.', '.', '.'] else s3
      some (pyStrip s4)

example : validate_ai_response (some ("**Salom** bu *test*".toList)) 4000
    = some ("Salom bu test".toList) := by decide

example : pyReplace ['a', 'a'] ['b'] ("aaa".toList) = "ba".toList := by decide

example : get_ai_response false (AIOutcome.text ("hi")) ("fr") = fallbackUz := by decide

/-- One `KnowledgeBase` row of kind `product` as read by
`find_relevant_product_images` (src/ai.py lines 162-241):
its `content` string and optional `source_name`. -/
structure KnowledgeProduct where
  content : List Char
  source_name : Option (List Char)
deriving DecidableEq

/-- One media suggestion produced by `find_relevant_product_images`
(the dict with keys `url`, `product_name`, `caption`). -/
structure Suggestion where
  url : List Char
  product_name : List Char
  caption : List Char
deriving DecidableEq

def kwMahsulot : List Char := "Mahsulot:".toList

/-- The default display name literal of src/ai.py lines 229-230. -/
def defaultProductName : List Char := "Mahsulot".toList

def kwRasm : List Char := "Rasm:".toList

def kwHttp : List Char := "http".toList

/-- The stoplist `generic_words` of src/ai.py line 210. -/
def generic_words : List (List Char) :=
  ["mahsulot".toList, "narx".toList, "som".toList, "dollar".toList,
   "paket".toList, "zip".toList, "rasm".toList, "tavsif".toList,
   "haqida".toList]

/-- `user_words` (src/ai.py line 177): lowercase, whitespace-split,
stripped, keeping words longer than 2 characters. -/
def userWordsOf (user_message : List Char) : List (List Char) :=
  ((splitWs (pyLower user_message)).map pyStrip).filter fun w => 2 < w.length

/-- `actual_product_name` (src/ai.py lines 190-195): first line of the
product content starting with `Mahsulot:`, with the marker removed,
stripped and lowered; empty when no such line exists. -/
def actualNameOf (lines : List (List Char)) : List Char :=
  match lines.find? (fun ln => startsWithL kwMahsulot ln) with
  | some ln => pyLower (pyStrip (pyReplace kwMahsulot [] ln))
  | none => []

/-- The image line search (src/ai.py lines 216-222): first line starting
with `Rasm:` and containing `http`. -/
def imageLineOf (lines : List (List Char)) : Option (List Char) :=
  lines.find? fun ln => startsWithL kwRasm ln && containsSub kwHttp ln

/-- `image_url` extracted from an image line (src/ai.py line 220). -/
def imageUrlOf (ln : List Char) : List Char := pyStrip (pyReplace kwRasm [] ln)

/-- The relevance score of one product (src/ai.py lines 187-213). -/
def productScore (userWords : List (List Char)) (p : KnowledgeProduct) : Nat :=
  let product_content := pyLower p.content
  let product_name := pyLower (p.source_name.getD [])
  let actual_product_name := actualNameOf (splitOnChar '\x0a' p.content)
  (if actual_product_name ≠ [] then
     10 * ((userWords.filter fun w => containsSub w actual_product_name).length)
   else 0)
  + (if product_name ≠ [] then
       5 * ((userWords.filter fun w => containsSub w product_name).length)
     else 0)
  + ((userWords.filter fun w =>
       decide (w ∉ generic_words) && containsSub w product_content).length)

/-- The display name used in the suggestion (src/ai.py lines 229-230):
`product.source_name or actual_product_name or 'Mahsulot'` with Python
falsy empty strings. -/
def displayNameOf (p : KnowledgeProduct) (actual_product_name : List Char) :
    List Char :=
  let sn := p.source_name.getD []
  if sn ≠ [] then sn
  else if actual_product_name ≠ [] then actual_product_name
  else defaultProductName

/-- The best-match scan of `find_relevant_product_images`
(src/ai.py lines 179-231): fold over the products keeping the highest
score among products that carry an image line (strict improvement, so
the first product wins ties). -/
def scanProducts (userWords : List (List Char)) :
    List KnowledgeProduct → Nat → Option Suggestion → Nat × Option Suggestion
  | [], best_score, best_match => (best_score, best_match)
  | p :: ps, best_score, best_match =>
    let lines := splitOnChar '\x0a' p.content
    let actual_product_name := actualNameOf lines
    let score := productScore userWords p
    match imageLineOf lines with
    | some ln =>
      if best_score < score then
        let name := displayNameOf p actual_product_name
        scanProducts userWords ps score
          (some ⟨imageUrlOf ln, name, '📦' :: ' ' :: name⟩)
      else scanProducts userWords ps best_score best_match
    | none => scanProducts userWords ps best_score best_match

/-- `find_relevant_product_images` (src/ai.py lines 162-241), with the
database query abstracted as the list of the bot's product rows:
return the single best match when its score reaches the threshold 3,
otherwise the empty list. -/
def find_relevant_product_images (products : List KnowledgeProduct)
    (user_message : List Char) : List Suggestion :=
  if products = [] then []
  else
    let userWords := userWordsOf user_message
    let r := scanProducts userWords products 0 none
    match r.2 with
    | some m => if 3 ≤ r.1 then [m] else []
    | none => []

/- ===================== src/telegram_bot.py ===================== -/

/-- State of the module-level dedup ledger (src/telegram_bot.py lines
403-407): `PROCESSED_UPDATE_IDS` (a Python set, modelled as a
duplicate-free list in insertion order) and `_processed_queue`
(a `deque(maxlen=500)`). -/
structure DedupState where
  ids : List Nat
  queue : List Nat
deriving DecidableEq

/-- The deque capacity `maxlen=500` of src/telegram_bot.py line 407. -/
def dedupCapacity : Nat := 500

/-- Appending to a `deque(maxlen=500)`: the oldest entries are dropped
when the length would exceed the capacity. -/
def dequeAppend (q : List Nat) (x : Nat) : List Nat :=
  let q2 := q ++ [x]
  if dedupCapacity < q2.length then q2.drop (q2.length - dedupCapacity) else q2

/-- Python `set.pop()` removes an arbitrary element; the choice is
modelled by an oracle `choose` giving an index.  On an empty set the
Python code catches `KeyError` and breaks, leaving the set unchanged. -/
def popArb (choose : List Nat → Nat) (l : List Nat) : List Nat :=
  l.eraseIdx (choose l % l.length)

/-- The cleanup `while len(PROCESSED_UPDATE_IDS) > maxlen: pop()`
(src/telegram_bot.py lines 417-422), fuelled by the set size so the
loop is total. -/
def trimIds (choose : List Nat → Nat) : Nat → List Nat → List Nat
  | 0, l => l
  | fuel + 1, l =>
    if dedupCapacity < l.length then trimIds choose fuel (popArb choose l) else l

/-- `_mark_processed` (src/telegram_bot.py lines 409-423): admit an
update id, returning `false` for a duplicate and `true` (recording it)
otherwise; when the deque reaches its capacity, excess set entries are
popped arbitrarily. -/
def mark_processed (choose : List Nat → Nat) (st : DedupState) (uid : Nat) :
    Bool × DedupState :=
  if uid ∈ st.ids then (false, st)
  else
    let ids := st.ids ++ [uid]
    let queue := dequeAppend st.queue uid
    let ids2 := if queue.length = dedupCapacity then trimIds choose ids.length ids else ids
    (true, ⟨ids2, queue⟩)

/-- Result of dispatching one pulled batch in `run_polling`
(src/telegram_bot.py lines 315-349): the stored cursor `offset`, the
dedup ledger, the ids whose handler (`process_update`) was invoked, and
among those the ids whose handler returned without raising. -/
structure BatchResult where
  offset : Option Nat
  dedup : DedupState
  invoked : List Nat
  succeeded : List Nat
deriving DecidableEq

/-- The `for update in updates['result']` loop of `run_polling`
(src/telegram_bot.py lines 319-335).  Per event: a duplicate is skipped
with `continue` (handler not invoked, offset untouched); otherwise
`process_update` runs — modelled by the oracle `handle`, `true` meaning
it returns normally — and only then is `offset` set to the event id
plus one.  When the handler raises, the exception aborts the rest of
the batch (caught by the `except` of the `while` loop), leaving the
offset at its previous value. -/
def dispatchBatch (choose : List Nat → Nat) (handle : Nat → Bool) :
    List Nat → Option Nat → DedupState → BatchResult
  | [], off, st => ⟨off, st, [], []⟩
  | u :: us, off, st =>
    let m := mark_processed choose st u
    if m.1 then
      if handle u then
        let rest := dispatchBatch choose handle us (some (u + 1)) m.2
        ⟨rest.offset, rest.dedup, u :: rest.invoked, u :: rest.succeeded⟩
      else ⟨off, m.2, [u], []⟩
    else dispatchBatch choose handle us off m.2

/-- Outcome of the access check inside `TelegramBot.handle_message`
(src/telegram_bot.py lines 1026-1067): either the denial reply is sent
and the handler returns before any AI work, or the message is allowed;
when the trial window is active the feedback surfaces the remaining
days. -/
inductive GateOutcome where
  | denied
  | allowed (trialDaysLeft : Option Int)
deriving DecidableEq

/-- The trial-start resolution of src/telegram_bot.py lines 1031-1039:
prefer the customer record's `first_interaction` for this (bot, user)
pair; otherwise `db_user.subscription_start_date or db_user.created_at`
(Python `or` over possibly-missing datetimes). -/
def resolveTrialStart (firstInteraction subStart createdAt : Option Int) :
    Option Int :=
  match firstInteraction with
  | some t => some t
  | none =>
    match subStart with
    | some s => some s
    | none => createdAt

def secondsPerDay : Int := 86400

/-- The access check of `handle_message` (src/telegram_bot.py lines
1026-1067).  Times are UTC timestamps in seconds.  `trial_active` holds
when `now - trial_start <= timedelta(days=14)`; the user passes when
the subscription is active or the trial is active; on a pass with an
active trial the feedback shows `14 - (now - trial_start).days` clamped
below at 0 (`timedelta.days` floors, i.e. `Int.fdiv` by 86400). -/
def accessGate (now : Int) (firstInteraction subStart createdAt : Option Int)
    (subscriptionActive : Bool) : GateOutcome :=
  let trial_start := resolveTrialStart firstInteraction subStart createdAt
  let trial_active :=
    match trial_start with
    | some t => decide (now - t ≤ 14 * secondsPerDay)
    | none => false
  if subscriptionActive || trial_active then
    GateOutcome.allowed
      (match trial_start with
       | some t =>
         if trial_active then
           some (let dl := 14 - Int.fdiv (now - t) secondsPerDay
                 if dl < 0 then 0 else dl)
         else none
       | none => none)
  else GateOutcome.denied

/-- Whether the handler goes on to build context and call the AI: the
code returns immediately after the denial reply (src/telegram_bot.py
lines 1046-1050). -/
def proceedsToAI : GateOutcome → Bool
  | GateOutcome.denied => false
  | GateOutcome.allowed _ => true

/-- The privileged owner tiers of src/telegram_bot.py line 705. -/
def privileged_tiers : List String := ["starter", "basic", "premium", "admin"]

/-- Observable result of `TelegramBot.language_callback`
(src/telegram_bot.py lines 676-724). -/
inductive LangResult where
  | noAction
  | lockedNotice
  | changed (language : List Char)
  | refused
deriving DecidableEq

/-- `TelegramBot.language_callback` (src/telegram_bot.py lines 676-724)
on callback data `data` for an existing/missing end-user record, with
the bot owner's subscription tier passed in (the code reads it from the
database; `'free'` when the bot or owner is missing).  The end user's
own subscription state is never consulted on this path.  The language
is `data.split('_')[1]` when `'_' in data`; `"lang_locked"` produces
the locked notice; the change is applied when the language is `'uz'`
or `ownerSubscription in ['starter','basic','premium','admin']`. -/
def language_callback (ownerSubscription : String) (data : List Char)
    (userExists : Bool) : LangResult :=
  if data = "lang_locked".toList then LangResult.lockedNotice
  else
    match (splitOnChar '_' data).get? 1 with
    | none => LangResult.noAction
    | some lang =>
      if lang = [] then LangResult.noAction
      else if ¬userExists then LangResult.noAction
      else if lang = "uz".toList ∨ ownerSubscription ∈ privileged_tiers then
        LangResult.changed lang
      else LangResult.refused

/-- The `running_bots` map of `BotManager` (src/telegram_bot.py line
1321): bot id to the identity of the worker thread spawned for it,
modelled as an association list. -/
abbrev ManagerMap : Type := List (Nat × Nat)

/-- `BotManager.start_bot` (src/telegram_bot.py lines 1323-1349).
`available` is the module flag `TELEGRAM_AVAILABLE`; `spawnOk` models
whether constructing the bot and starting its thread succeeds (the
`except` branch returns `False`); `worker` is the identity the new
thread would get.  The result carries the returned boolean, the new
map, and how many workers were spawned (0 or 1). -/
def start_bot (available spawnOk : Bool) (worker : Nat) (m : ManagerMap)
    (bot_id : Nat) : Bool × ManagerMap × Nat :=
  if ¬available then (false, m, 0)
  else if (List.find? (fun p => p.1 = bot_id) m).isSome then (true, m, 0)
  else if spawnOk then (true, m ++ [(bot_id, worker)], 1)
  else (false, m, 0)

/-- `BotManager.stop_bot` (src/telegram_bot.py lines 1351-1364):
idempotent — deleting the entry when present, returning `True` either
way (the attribute assignment inside the `try` cannot raise for the
objects this code builds). -/
def stop_bot (m : ManagerMap) (bot_id : Nat) : Bool × ManagerMap :=
  if (List.find? (fun p => p.1 = bot_id) m).isSome then
    (true, List.filter (fun p => ¬p.1 = bot_id) m)
  else (true, m)

/-- `BotManager.restart_bot` (src/telegram_bot.py lines 1366-1369):
stop then start. -/
def restart_bot (available spawnOk : Bool) (worker : Nat) (m : ManagerMap)
    (bot_id : Nat) : Bool × ManagerMap × Nat :=
  start_bot available spawnOk worker (stop_bot m bot_id).2 bot_id

/-- One call against the global `bot_manager`. -/
inductive MgrOp where
  | start (bot_id worker : Nat) (available spawnOk : Bool)
  | stop (bot_id : Nat)
  | restart (bot_id worker : Nat) (available spawnOk : Bool)

def applyMgrOp (m : ManagerMap) : MgrOp → ManagerMap
  | MgrOp.start bot_id worker available spawnOk =>
    (start_bot available spawnOk worker m bot_id).2.1
  | MgrOp.stop bot_id => (stop_bot m bot_id).2
  | MgrOp.restart bot_id worker available spawnOk =>
    (restart_bot available spawnOk worker m bot_id).2.1

def applyMgrOps (m : ManagerMap) (ops : List MgrOp) : ManagerMap :=
  ops.foldl applyMgrOp m

/-- `validate_telegram_token` (src/telegram_bot.py lines 1374-1389),
with the `getMe` HTTP call modelled by the oracle `net` (`some b` for a
200 response whose body has `ok = b`; `none` for a non-200 status or a
raised exception).  The result records the returned boolean and whether
the network was reached. -/
def validate_telegram_token (net : String → Option Bool) (token : String) :
    Bool × Bool :=
  if token = "" ∨ token.length < 20 then (false, false)
  else
    match net token with
    | some ok => (ok, true)
    | none => (false, true)

/-- `start_bot_automatically` (src/telegram_bot.py lines 1415-1438):
fail when the library is unavailable, then validate the token, then
delegate to `bot_manager.start_bot`; the new manager map is returned. -/
def start_bot_automatically (available spawnOk : Bool) (worker : Nat)
    (net : String → Option Bool) (m : ManagerMap) (bot_id : Nat)
    (token : String) : Bool × ManagerMap :=
  if ¬available then (false, m)
  else if (validate_telegram_token net token).1 = false then (false, m)
  else
    let r := start_bot available spawnOk worker m bot_id
    (r.1, r.2.1)

/- ===================== helper lemmas ===================== -/

theorem get_fallback_response_ne_empty (lang : String) :
    get_fallback_response lang ≠ "" := by
  unfold get_fallback_response
  split
  · decide
  · split
    · decide
    · split
      · decide
      · decide

/- ===================== claim theorems ===================== -/

/-- Claim C3: `get_ai_response` is total and never yields an error
value: when the AI collaborator is unavailable, raises, or returns
empty text, the result is the fixed fallback sentence for the given
language, and for a language other than `uz`/`ru`/`en` the fallback is
the Uzbek sentence; in no case is the returned text empty, so an AI
failure is never surfaced to the end user as an error. -/
theorem ai_failure_gives_localized_fallback :
    (∀ (g : Bool) (o : AIOutcome) (lang : String),
        get_ai_response g o lang ≠ "") ∧
    (∀ (g : Bool) (o : AIOutcome) (lang : String),
        g = false ∨ o = AIOutcome.failure ∨ o = AIOutcome.text "" →
        get_ai_response g o lang = get_fallback_response lang) ∧
    (∀ lang : String, lang ≠ "uz" → lang ≠ "ru" → lang ≠ "en" →
        get_fallback_response lang = fallbackUz) := by
  refine ⟨?_, ?_, ?_⟩
  · intro g o lang
    unfold get_ai_response
    cases g with
    | false => simpa using get_fallback_response_ne_empty lang
    | true =>
      simp only [Bool.true_eq_false, if_false]
      cases o with
      | failure => exact get_fallback_response_ne_empty lang
      | text s =>
        by_cases hs : s = ""
        · simpa [hs] using get_fallback_response_ne_empty lang
        · simp [hs]
  · intro g o lang h
    unfold get_ai_response
    rcases h with rfl | rfl | rfl
    · rfl
    · cases g <;> rfl
    · cases g <;> simp
  · intro lang h1 h2 h3
    unfold get_fallback_response
    rw [if_neg h1, if_neg h2, if_neg h3]

/-- Witness for C3 at concrete inputs: an unavailable library, a raising
collaborator, and an empty text each yield the fallback, here for the
unknown language code `fr` (hence the Uzbek sentence). -/
theorem ai_failure_gives_localized_fallback_witness :
    get_ai_response true AIOutcome.failure ("fr") ≠ "" ∧
    get_ai_response true AIOutcome.failure ("fr") = get_fallback_response ("fr") ∧
    get_fallback_response ("fr") = fallbackUz := by
  refine ⟨?_, ?_, ?_⟩
  · exact ai_failure_gives_localized_fallback.1 true AIOutcome.failure ("fr")
  · exact ai_failure_gives_localized_fallback.2.1 true AIOutcome.failure ("fr")
      (Or.inr (Or.inl rfl))
  · exact ai_failure_gives_localized_fallback.2.2 ("fr")
      (by decide) (by decide) (by decide)

theorem not_key_of_find?_none {m : ManagerMap} {bot_id : Nat}
    (h : List.find? (fun p => p.1 = bot_id) m = none) :
    bot_id ∉ m.map Prod.fst := by
  intro hmem
  rcases List.mem_map.mp hmem with ⟨p, hp, hfst⟩
  exact (List.find?_eq_none.mp h) p hp (by simp [hfst])

theorem start_bot_keys_nodup {m : ManagerMap} {bot_id worker : Nat}
    {available spawnOk : Bool} (h : (m.map Prod.fst).Nodup) :
    (((start_bot available spawnOk worker m bot_id).2.1).map Prod.fst).Nodup := by
  unfold start_bot
  split
  · exact h
  · split
    · exact h
    · split
      · rename_i hfind _
        rw [List.map_append, List.nodup_append]
        refine ⟨h, by simp, ?_⟩
        intro x hx hx2
        simp only [List.map_cons, List.map_nil, List.mem_singleton] at hx2
        subst hx2
        exact not_key_of_find?_none
          (Option.not_isSome_iff_eq_none.mp hfind) hx
      · exact h

theorem stop_bot_keys_nodup {m : ManagerMap} {bot_id : Nat}
    (h : (m.map Prod.fst).Nodup) :
    (((stop_bot m bot_id).2).map Prod.fst).Nodup := by
  unfold stop_bot
  split
  · exact List.Nodup.sublist
      (List.Sublist.map Prod.fst (List.filter_sublist m)) h
  · exact h

theorem applyMgrOp_keys_nodup {m : ManagerMap} (op : MgrOp)
    (h : (m.map Prod.fst).Nodup) :
    ((applyMgrOp m op).map Prod.fst).Nodup := by
  cases op with
  | start bot_id worker available spawnOk => exact start_bot_keys_nodup h
  | stop bot_id => exact stop_bot_keys_nodup h
  | restart bot_id worker available spawnOk =>
    exact start_bot_keys_nodup (stop_bot_keys_nodup h)

/-- Claim C9: the bot manager keeps at most one running poller per bot
id: `start_bot` on an id already in `running_bots` returns `True`
without touching the map or spawning a worker, `stop_bot` on an id that
is not running returns `True` and changes nothing, and any sequence of
start/stop/restart calls preserves distinctness of the bot ids in
`running_bots`. -/
theorem bot_manager_single_poller :
    (∀ (m : ManagerMap) (bot_id worker : Nat) (spawnOk : Bool),
        (List.find? (fun p => p.1 = bot_id) m).isSome →
        start_bot true spawnOk worker m bot_id = (true, m, 0)) ∧
    (∀ (m : ManagerMap) (bot_id : Nat),
        List.find? (fun p => p.1 = bot_id) m = none →
        stop_bot m bot_id = (true, m)) ∧
    (∀ (m : ManagerMap) (ops : List MgrOp),
        (m.map Prod.fst).Nodup → ((applyMgrOps m ops).map Prod.fst).Nodup) := by
  refine ⟨?_, ?_, ?_⟩
  · intro m bot_id worker spawnOk hfind
    unfold start_bot
    rw [if_neg (by simp), if_pos hfind]
  · intro m bot_id hfind
    unfold stop_bot
    rw [if_neg (by simp [hfind])]
  · intro m ops
    induction ops generalizing m with
    | nil => exact fun h => h
    | cons op ops ih =>
      intro h
      exact ih (applyMgrOp m op) (applyMgrOp_keys_nodup op h)

/-- Witness for C9 at concrete inputs: starting bot 1 while it is
running changes nothing and spawns nothing; stopping bot 2, which is
not running, returns `True`; a concrete start/restart/stop sequence
keeps the registry keys distinct. -/
theorem bot_manager_single_poller_witness :
    start_bot true true 9 [(1, 5)] 1 = (true, [(1, 5)], 0) ∧
    stop_bot [(1, 5)] 2 = (true, [(1, 5)]) ∧
    ((applyMgrOps [(1, 5)]
        [MgrOp.start 2 6 true true, MgrOp.restart 1 7 true true,
         MgrOp.stop 2]).map Prod.fst).Nodup := by
  refine ⟨?_, ?_, ?_⟩
  · exact bot_manager_single_poller.1 [(1, 5)] 1 9 true (by decide)
  · exact bot_manager_single_poller.2.1 [(1, 5)] 2 (by decide)
  · exact bot_manager_single_poller.2.2 [(1, 5)] _ (by decide)

/-- Claim C10: a token that is empty or shorter than 20 characters is
rejected by `validate_telegram_token` without reaching the network, and
`start_bot_automatically` with such a token returns `False` leaving the
manager registry untouched (no poller started). -/
theorem invalid_token_never_starts :
    ∀ (net : String → Option Bool) (token : String),
      token = "" ∨ token.length < 20 →
      validate_telegram_token net token = (false, false) ∧
      ∀ (available spawnOk : Bool) (worker : Nat) (m : ManagerMap)
        (bot_id : Nat),
        start_bot_automatically available spawnOk worker net m bot_id token
          = (false, m) := by
  intro net token h
  have hv : validate_telegram_token net token = (false, false) := by
    unfold validate_telegram_token
    rw [if_pos h]
  refine ⟨hv, ?_⟩
  intro available spawnOk worker m bot_id
  unfold start_bot_automatically
  by_cases ha : available
  · simp [ha, hv]
  · simp [ha]

/-- Witness for C10 at a concrete short token, with a network oracle
that would accept anything — it is never consulted. -/
theorem invalid_token_never_starts_witness :
    validate_telegram_token (fun _ => some true) ("short") = (false, false) ∧
    start_bot_automatically true true 1 (fun _ => some true) [] 7 ("short")
      = (false, []) := by
  have h := invalid_token_never_starts (fun _ => some true) ("short")
    (Or.inr (by decide))
  exact ⟨h.1, h.2 true true 1 [] 7⟩

theorem trimIds_of_le {choose : List Nat → Nat} {l : List Nat}
    (fuel : Nat) (h : l.length ≤ dedupCapacity) : trimIds choose fuel l = l := by
  cases fuel with
  | zero => rfl
  | succ n =>
    unfold trimIds
    rw [if_neg (Nat.not_lt.mpr h)]

theorem mark_processed_of_mem (choose : List Nat → Nat) {st : DedupState}
    {uid : Nat} (h : uid ∈ st.ids) :
    mark_processed choose st uid = (false, st) := by
  unfold mark_processed
  rw [if_pos h]

theorem mark_processed_fst_of_not_mem (choose : List Nat → Nat)
    {st : DedupState} {uid : Nat} (h : uid ∉ st.ids) :
    (mark_processed choose st uid).1 = true := by
  unfold mark_processed
  rw [if_neg h]

/-- Claim C1: the dedup ledger admits every id on first sight (returning
`true` and recording it when under capacity), returns `false` for an id
still recorded, and the polling loop's batch dispatch skips such a
duplicate entirely — its handler is never invoked and the state evolves
as if the duplicate were absent from the batch. -/
theorem dedup_first_admit_then_duplicate :
    (∀ (choose : List Nat → Nat) (st : DedupState) (uid : Nat),
        uid ∉ st.ids → (mark_processed choose st uid).1 = true) ∧
    (∀ (choose : List Nat → Nat) (st : DedupState) (uid : Nat),
        uid ∉ st.ids → st.ids.length < dedupCapacity →
        uid ∈ (mark_processed choose st uid).2.ids) ∧
    (∀ (choose : List Nat → Nat) (st : DedupState) (uid : Nat),
        uid ∈ st.ids → mark_processed choose st uid = (false, st)) ∧
    (∀ (choose : List Nat → Nat) (handle : Nat → Bool) (us : List Nat)
        (off : Option Nat) (st : DedupState) (uid : Nat),
        uid ∈ st.ids →
        dispatchBatch choose handle (uid :: us) off st
          = dispatchBatch choose handle us off st) := by
  refine ⟨?_, ?_, ?_, ?_⟩
  · intro choose st uid h
    exact mark_processed_fst_of_not_mem choose h
  · intro choose st uid h hcap
    unfold mark_processed
    rw [if_neg h]
    simp only
    split
    · rw [trimIds_of_le _ (by simp [Nat.succ_le_of_lt hcap])]
      simp
    · simp
  · intro choose st uid h
    exact mark_processed_of_mem choose h
  · intro choose handle us off st uid h
    simp only [dispatchBatch, mark_processed_of_mem choose h]
    simp

/-- Witness for C1 at concrete inputs: id 5 is admitted the first time
and recorded; admitting it again returns `false` and leaves the ledger
unchanged; the batch dispatcher skips the duplicate. -/
theorem dedup_first_admit_then_duplicate_witness :
    (mark_processed (fun _ => 0) ⟨[], []⟩ 5).1 = true ∧
    5 ∈ (mark_processed (fun _ => 0) ⟨[], []⟩ 5).2.ids ∧
    mark_processed (fun _ => 0) ⟨[5], [5]⟩ 5 = (false, ⟨[5], [5]⟩) ∧
    dispatchBatch (fun _ => 0) (fun _ => true) [5] none ⟨[5], [5]⟩
      = dispatchBatch (fun _ => 0) (fun _ => true) [] none ⟨[5], [5]⟩ := by
  refine ⟨?_, ?_, ?_, ?_⟩
  · exact dedup_first_admit_then_duplicate.1 (fun _ => 0) ⟨[], []⟩ 5 (by decide)
  · exact dedup_first_admit_then_duplicate.2.1 (fun _ => 0) ⟨[], []⟩ 5
      (by decide) (by decide)
  · exact dedup_first_admit_then_duplicate.2.2.1 (fun _ => 0) ⟨[5], [5]⟩ 5
      (by decide)
  · exact dedup_first_admit_then_duplicate.2.2.2 (fun _ => 0) (fun _ => true)
      [] none ⟨[5], [5]⟩ 5 (by decide)

/-- Counterexample to C5 as stated: a batch holding the single fresh
event 7 whose handler raises leaves the stored cursor at its previous
value (`none`), not advanced past the highest event id of the batch
(`some 8`) — the code only assigns `offset = update_id + 1` after
`process_update` returns. -/
theorem cursor_not_advanced_on_failure :
    (dispatchBatch (fun _ => 0) (fun _ => false) [7] none ⟨[], []⟩).offset
        = none ∧
    (dispatchBatch (fun _ => 0) (fun _ => false) [7] none ⟨[], []⟩).invoked
        = [7] ∧
    ¬(dispatchBatch (fun _ => 0) (fun _ => false) [7] none ⟨[], []⟩).offset
        = some 8 := by
  refine ⟨by decide, by decide, by decide⟩

/-- The cursor value produced by successively assigning
`offset = id + 1` for a run of events. -/
def advanceCursor (off : Option Nat) : List Nat → Option Nat
  | [] => off
  | v :: vs => advanceCursor (some (v + 1)) vs

/-- Claim C5 (amended): after a batch, the stored cursor has been
advanced past exactly the successfully handled events — it equals the
last successfully handled id plus one (the initial offset when none
succeeded).  An event skipped as a duplicate or whose handler raises
does not advance the cursor past itself; in the failure case the rest
of the batch is abandoned with the offset unchanged, and re-handling on
the re-pull is prevented by the dedup marking, not by cursor advance. -/
theorem cursor_advances_on_success_only :
    (∀ (choose : List Nat → Nat) (handle : Nat → Bool) (us : List Nat)
        (off : Option Nat) (st : DedupState),
        (dispatchBatch choose handle us off st).offset
          = advanceCursor off (dispatchBatch choose handle us off st).succeeded) ∧
    (∀ (choose : List Nat → Nat) (handle : Nat → Bool) (us : List Nat)
        (off : Option Nat) (st : DedupState) (uid : Nat),
        uid ∉ st.ids → handle uid = false →
        dispatchBatch choose handle (uid :: us) off st
          = ⟨off, (mark_processed choose st uid).2, [uid], []⟩) := by
  constructor
  · intro choose handle us
    induction us with
    | nil => intro off st; rfl
    | cons u us ih =>
      intro off st
      simp only [dispatchBatch]
      by_cases h1 : (mark_processed choose st u).1 = true
      · rw [if_pos h1]
        by_cases h2 : handle u = true
        · rw [if_pos h2]
          simpa [advanceCursor] using ih (some (u + 1)) (mark_processed choose st u).2
        · rw [if_neg h2]
          rfl
      · rw [if_neg h1]
        exact ih off (mark_processed choose st u).2
  · intro choose handle us off st uid hmem hfail
    simp only [dispatchBatch, mark_processed_fst_of_not_mem choose hmem, hfail]
    simp

/-- Witness for C5 (amended) at concrete inputs: a batch of the fresh
events 3, 4 where the handler of 4 raises ends with the cursor at
`some 4` (advanced past 3 only), matching `advanceCursor`, and the
failing singleton batch aborts with the offset unchanged. -/
theorem cursor_advances_on_success_only_witness :
    (dispatchBatch (fun _ => 0) (fun u => u = 3) [3, 4] none ⟨[], []⟩).offset
      = advanceCursor none
          (dispatchBatch (fun _ => 0) (fun u => u = 3) [3, 4] none
            ⟨[], []⟩).succeeded ∧
    dispatchBatch (fun _ => 0) (fun _ => false) [7] (some 2) ⟨[], []⟩
      = ⟨some 2, (mark_processed (fun _ => 0) ⟨[], []⟩ 7).2, [7], []⟩ := by
  constructor
  · exact cursor_advances_on_success_only.1 (fun _ => 0) (fun u => u = 3)
      [3, 4] none ⟨[], []⟩
  · exact cursor_advances_on_success_only.2 (fun _ => 0) (fun _ => false)
      [] (some 2) ⟨[], []⟩ 7 (by decide) (by decide)

/-- Claim C2: the trial-start resolution prefers the customer record's
first interaction and falls back to the user's subscription start date
or account-creation time; for an end user with no active subscription,
a trial start of exactly `now - 13 days` passes the gate with
`daysRemaining = 1` surfaced in the feedback, while `now - 15 days`
yields the denial outcome, so the handler returns before any AI work. -/
theorem access_gate_trial_window :
    (∀ (t : Int) (ss ca : Option Int),
        resolveTrialStart (some t) ss ca = some t) ∧
    (∀ (s : Int) (ca : Option Int),
        resolveTrialStart none (some s) ca = some s) ∧
    (∀ ca : Option Int, resolveTrialStart none none ca = ca) ∧
    (∀ (now : Int) (fi ss ca : Option Int),
        resolveTrialStart fi ss ca = some (now - 13 * secondsPerDay) →
        accessGate now fi ss ca false = GateOutcome.allowed (some 1) ∧
        proceedsToAI (accessGate now fi ss ca false) = true) ∧
    (∀ (now : Int) (fi ss ca : Option Int),
        resolveTrialStart fi ss ca = some (now - 15 * secondsPerDay) →
        accessGate now fi ss ca false = GateOutcome.denied ∧
        proceedsToAI (accessGate now fi ss ca false) = false) := by
  refine ⟨fun t ss ca => rfl, fun s ca => rfl, fun ca => rfl, ?_, ?_⟩
  · intro now fi ss ca h
    have hg : accessGate now fi ss ca false = GateOutcome.allowed (some 1) := by
      simp only [accessGate, h]
      have e : now - (now - 13 * secondsPerDay) = 13 * secondsPerDay := by ring
      rw [e]
      decide
    exact ⟨hg, by rw [hg]; rfl⟩
  · intro now fi ss ca h
    have hg : accessGate now fi ss ca false = GateOutcome.denied := by
      simp only [accessGate, h]
      have e : now - (now - 15 * secondsPerDay) = 15 * secondsPerDay := by ring
      rw [e]
      decide
    exact ⟨hg, by rw [hg]; rfl⟩

/-- Witness for C2 at concrete timestamps (`now` = day 100 in seconds):
a first interaction 13 days old is allowed with one day remaining, and
a subscription start 15 days old, with no interaction record and no
active subscription, is denied. -/
theorem access_gate_trial_window_witness :
    resolveTrialStart (some 7516800) none none
      = some ((8640000 : Int) - 13 * secondsPerDay) ∧
    accessGate 8640000 (some 7516800) none none false
      = GateOutcome.allowed (some 1) ∧
    accessGate 8640000 none (some 7344000) none false
      = GateOutcome.denied := by
  refine ⟨by decide, ?_, ?_⟩
  · exact (access_gate_trial_window.2.2.2.1 8640000 (some 7516800) none none
      (by decide)).1
  · exact (access_gate_trial_window.2.2.2.2 8640000 none (some 7344000) none
      (by decide)).1

/-- The callback data `f"lang_{l}"` for a language payload `l`. -/
def mkLangData (l : List Char) : List Char :=
  'l' :: 'a' :: 'n' :: 'g' :: '_' :: l

theorem splitOnCharAux_no_sep {sep : Char} :
    ∀ (l acc : List Char), sep ∉ l →
      splitOnCharAux sep l acc = [acc.reverse ++ l] := by
  intro l
  induction l with
  | nil => intro acc _; simp [splitOnCharAux]
  | cons c cs ih =>
    intro acc h
    have hc : ¬(c = sep) := fun e => h (e ▸ List.mem_cons_self c cs)
    simp only [splitOnCharAux, if_neg hc]
    rw [ih (c :: acc) (fun hm => h (List.mem_cons_of_mem c hm))]
    simp

theorem splitOnChar_mkLangData {l : List Char} (h : '_' ∉ l) :
    splitOnChar '_' (mkLangData l) = [['l', 'a', 'n', 'g'], l] := by
  unfold splitOnChar mkLangData
  simp only [splitOnCharAux, if_neg (by decide : ¬('l' = '_')),
    if_neg (by decide : ¬('a' = '_')), if_neg (by decide : ¬('n' = '_')),
    if_neg (by decide : ¬('g' = '_')), if_pos (rfl : '_' = '_')]
  rw [splitOnCharAux_no_sep l [] h]
  rfl

/-- Claim C8: in `language_callback`, selecting the default language
`uz` always succeeds; a selection of any other (non-empty, well-formed)
language payload is applied to the end user's record exactly when the
bot owner's subscription tier lies in `privileged_tiers` =
{starter, basic, premium, admin}; with a non-privileged owner the
selection is refused, and the `lang_locked` button only yields the
locked notice.  The end user's own subscription state is not an input
of this code path at all, so the outcome is independent of it. -/
theorem language_change_owner_gated :
    (∀ tier : String,
        language_callback tier (mkLangData ("uz".toList)) true
          = LangResult.changed ("uz".toList)) ∧
    (∀ (tier : String) (l : List Char), '_' ∉ l → l ≠ [] →
        l ≠ "locked".toList → l ≠ "uz".toList →
        (language_callback tier (mkLangData l) true = LangResult.changed l ↔
          tier ∈ privileged_tiers)) ∧
    (∀ (tier : String) (l : List Char), '_' ∉ l → l ≠ [] →
        l ≠ "locked".toList → l ≠ "uz".toList → tier ∉ privileged_tiers →
        language_callback tier (mkLangData l) true = LangResult.refused) ∧
    (∀ tier : String,
        language_callback tier ("lang_locked".toList) true
          = LangResult.lockedNotice) := by
  have key : ∀ (tier : String) (l : List Char), '_' ∉ l → l ≠ [] →
      l ≠ "locked".toList →
      language_callback tier (mkLangData l) true
        = if l = "uz".toList ∨ tier ∈ privileged_tiers then
            LangResult.changed l
          else LangResult.refused := by
    intro tier l hu hne hlock
    unfold language_callback
    have hd : mkLangData l ≠ "lang_locked".toList := by
      intro e
      apply hlock
      have : ('l' :: 'a' :: 'n' :: 'g' :: '_' :: l : List Char)
          = 'l' :: 'a' :: 'n' :: 'g' :: '_' :: ('l' :: 'o' :: 'c' :: 'k' :: 'e' :: 'd' :: []) := e
      simpa using this
    rw [if_neg hd, splitOnChar_mkLangData hu]
    simp only [List.get?]
    rw [if_neg hne, if_neg (by simp)]
  refine ⟨?_, ?_, ?_, ?_⟩
  · intro tier
    rw [key tier ("uz".toList) (by decide) (by decide) (by decide),
      if_pos (Or.inl rfl)]
  · intro tier l hu hne hlock huz
    rw [key tier l hu hne hlock]
    constructor
    · intro h
      by_cases hc : l = "uz".toList ∨ tier ∈ privileged_tiers
      · rcases hc with hc | hc
        · exact absurd hc huz
        · exact hc
      · rw [if_neg hc] at h
        exact absurd h (by simp)
    · intro h
      rw [if_pos (Or.inr h)]
  · intro tier l hu hne hlock huz htier
    rw [key tier l hu hne hlock,
      if_neg (fun hc => hc.elim huz htier)]
  · intro tier
    unfold language_callback
    rw [if_pos rfl]

/-- Witness for C8 at concrete inputs: the free-tier owner's bot still
lets the end user pick `uz`; for `ru` the change goes through exactly
for a starter owner; a free owner gets the refusal. -/
theorem language_change_owner_gated_witness :
    language_callback ("free") (mkLangData ("uz".toList)) true
      = LangResult.changed ("uz".toList) ∧
    (language_callback ("starter") (mkLangData ("ru".toList)) true
        = LangResult.changed ("ru".toList) ↔
      ("starter" : String) ∈ privileged_tiers) ∧
    language_callback ("free") (mkLangData ("ru".toList)) true
      = LangResult.refused ∧
    language_callback ("free") ("lang_locked".toList) true
      = LangResult.lockedNotice := by
  refine ⟨?_, ?_, ?_, ?_⟩
  · exact language_change_owner_gated.1 ("free")
  · exact language_change_owner_gated.2.1 ("starter") ("ru".toList)
      (by decide) (by decide) (by decide) (by decide)
  · exact language_change_owner_gated.2.2.1 ("free") ("ru".toList)
      (by decide) (by decide) (by decide) (by decide) (by decide)
  · exact language_change_owner_gated.2.2.2 ("free")

theorem mem_pyReplaceAux {x : Char} {old rep : List Char} :
    ∀ (fuel : Nat) (l : List Char), x ∈ pyReplaceAux old rep fuel l →
      x ∈ rep ∨ x ∈ l := by
  intro fuel
  induction fuel with
  | zero => exact fun l h => Or.inr h
  | succ n ih =>
    intro l h
    cases l with
    | nil => simp [pyReplaceAux] at h
    | cons c cs =>
      simp only [pyReplaceAux] at h
      split at h
      · rcases List.mem_append.mp h with hx | hx
        · exact Or.inl hx
        · rcases ih _ hx with hr | hl
          · exact Or.inl hr
          · exact Or.inr (List.mem_cons_of_mem c (List.drop_subset _ _ hl))
      · rcases List.mem_cons.mp h with hx | hx
        · exact Or.inr (by rw [hx]; exact List.mem_cons_self c cs)
        · rcases ih _ hx with hr | hl
          · exact Or.inl hr
          · exact Or.inr (List.mem_cons_of_mem c hl)

theorem mem_of_mem_pyReplace {x : Char} {old rep l : List Char}
    (h : x ∈ pyReplace old rep l) : x ∈ rep ∨ x ∈ l :=
  mem_pyReplaceAux _ _ h

theorem not_mem_pyReplaceAux_single (c : Char) :
    ∀ (fuel : Nat) (l : List Char), l.length ≤ fuel →
      c ∉ pyReplaceAux [c] [] fuel l := by
  intro fuel
  induction fuel with
  | zero =>
    intro l hl
    have : l = [] := List.length_eq_zero.mp (Nat.le_zero.mp hl)
    subst this
    simp [pyReplaceAux]
  | succ n ih =>
    intro l hl
    cases l with
    | nil => simp [pyReplaceAux]
    | cons x xs =>
      simp only [List.length_cons] at hl
      simp only [pyReplaceAux]
      by_cases hx : startsWithL [c] (x :: xs) = true
      · rw [if_pos hx]
        have hd : xs.drop ([c].length - 1) = xs := by simp
        rw [hd, List.nil_append]
        exact ih xs (by omega)
      · rw [if_neg hx]
        intro hmem
        rcases List.mem_cons.mp hmem with h1 | h2
        · exact hx (by simp [startsWithL, h1])
        · exact ih xs (by omega) h2

theorem not_mem_pyReplace_single (c : Char) (l : List Char) :
    c ∉ pyReplace [c] [] l :=
  not_mem_pyReplaceAux_single c l.length l (le_refl _)

theorem pyReplaceAux_eq_self {c : Char} {old rep : List Char} :
    ∀ (fuel : Nat) (l : List Char), c ∉ l →
      pyReplaceAux (c :: old) rep fuel l = l := by
  intro fuel
  induction fuel with
  | zero => intro l _; rfl
  | succ n ih =>
    intro l hc
    cases l with
    | nil => rfl
    | cons x xs =>
      have hne : startsWithL (c :: old) (x :: xs) = false := by
        simp only [startsWithL]
        have hcx : ¬(c = x) :=
          fun e => hc (by rw [e]; exact List.mem_cons_self x xs)
        simp [hcx]
      simp only [pyReplaceAux, hne, Bool.false_eq_true, if_false]
      exact congrArg (List.cons x)
        (ih xs (fun hm => hc (List.mem_cons_of_mem x hm)))

theorem pyReplace_eq_self {c : Char} {old rep l : List Char} (h : c ∉ l) :
    pyReplace (c :: old) rep l = l :=
  pyReplaceAux_eq_self _ _ h

theorem mem_pyStrip {x : Char} {l : List Char} (h : x ∈ pyStrip l) : x ∈ l := by
  unfold pyStrip at h
  rw [List.mem_reverse] at h
  have h2 := (List.dropWhile_sublist pySpace).subset h
  rw [List.mem_reverse] at h2
  exact (List.dropWhile_sublist pySpace).subset h2

theorem length_pyStrip_le (l : List Char) : (pyStrip l).length ≤ l.length := by
  unfold pyStrip
  rw [List.length_reverse]
  refine le_trans (List.dropWhile_sublist pySpace).length_le ?_
  rw [List.length_reverse]
  exact (List.dropWhile_sublist pySpace).length_le

theorem dropWhile_eq_self_of_false {p : Char → Bool} {l : List Char}
    (h : ∀ x ∈ l, p x = false) : l.dropWhile p = l := by
  cases l with
  | nil => rfl
  | cons x xs =>
    rw [List.dropWhile_cons, h x (List.mem_cons_self x xs)]
    simp

theorem pyStrip_eq_self {l : List Char} (h : ∀ x ∈ l, pySpace x = false) :
    pyStrip l = l := by
  unfold pyStrip
  rw [dropWhile_eq_self_of_false h]
  rw [dropWhile_eq_self_of_false (fun x hx => h x (List.mem_reverse.mp hx))]
  exact List.reverse_reverse l

theorem star_not_mem_sanitizeResponse (s : List Char) :
    '*' ∉ sanitizeResponse s := by
  intro h
  unfold sanitizeResponse at h
  rcases mem_of_mem_pyReplace h with h1 | h1
  · exact absurd h1 (by simp)
  · exact not_mem_pyReplace_single '*' _ h1

theorem backtick_not_mem_sanitizeResponse (s : List Char) :
    '\x60' ∉ sanitizeResponse s := by
  intro h
  exact not_mem_pyReplace_single '\x60' _ h

theorem sanitizeResponse_eq_self {s : List Char} (h1 : '*' ∉ s)
    (h2 : '\x60' ∉ s) : sanitizeResponse s = s := by
  unfold sanitizeResponse
  rw [pyReplace_eq_self h1, pyReplace_eq_self h1, pyReplace_eq_self h2]

/-- Counterexample to C4 as stated: with the maximum length configured
to 40, the 41-character input `'a' * 41` makes `validate_ai_response`
return `'a' * 40 ++ "..."`, whose length 43 exceeds the configured cap —
the code slices to `max_length` and only then appends the ellipsis (the
same arithmetic holds at the default cap 4000 with 4001 characters). -/
theorem validate_truncation_exceeds_cap :
    validate_ai_response (some (List.replicate 41 'a')) 40
      = some (List.replicate 40 'a' ++ ['.', '.', '.']) ∧
    40 < (List.replicate 40 'a' ++ ['.', '.', '.']).length := by
  constructor
  · have hstar : '*' ∉ List.replicate 41 'a' := by
      intro hm
      rw [List.mem_replicate] at hm
      exact absurd hm.2 (by decide)
    have hbt : '\x60' ∉ List.replicate 41 'a' := by
      intro hm
      rw [List.mem_replicate] at hm
      exact absurd hm.2 (by decide)
    have hsan : sanitizeResponse (List.replicate 41 'a')
        = List.replicate 41 'a' := sanitizeResponse_eq_self hstar hbt
    simp only [validate_ai_response]
    rw [if_neg (by simp), hsan]
    rw [if_pos (by rw [List.length_replicate]; omega)]
    rw [List.take_replicate]
    have hmin : (40 : Nat) ⊓ 41 = 40 := by omega
    rw [hmin]
    rw [pyStrip_eq_self ?_]
    intro x hx
    rcases List.mem_append.mp hx with h | h
    · rw [List.eq_of_mem_replicate h]
      decide
    · have hx : x = '.' := by simpa using h
      rw [hx]
      decide
  · rw [List.length_append, List.length_replicate]
    simp only [List.length_cons, List.length_nil]
    omega

/-- Claim C4 (amended): whenever the sanitized response is longer than
the configured cap, `validate_ai_response` returns the sanitized string
truncated to the cap with an ellipsis appended (then whitespace
stripped); the result's length is bounded by `cap + 3`, not by the cap
itself — the three ellipsis characters can push it past the cap. -/
theorem validate_truncation_bound
    (s : List Char) (cap : Nat) (h : cap < (sanitizeResponse s).length) :
    validate_ai_response (some s) cap
      = some (pyStrip ((sanitizeResponse s).take cap ++ ['.', '.', '.'])) ∧
    (∀ (t : Option (List Char)) (out : List Char),
        validate_ai_response t cap = some out → out.length ≤ cap + 3) := by
  constructor
  · have hs : ¬(s = []) := by
      intro e
      rw [e] at h
      simp [sanitizeResponse, pyReplace, pyReplaceAux] at h
    simp only [validate_ai_response]
    rw [if_neg hs, if_pos h]
  · intro t out hout
    cases t with
    | none => simp [validate_ai_response] at hout
    | some u =>
      by_cases hu : u = []
      · simp [validate_ai_response, hu] at hout
      · simp only [validate_ai_response] at hout
        rw [if_neg hu] at hout
        have he := Option.some.inj hout
        rw [← he]
        refine le_trans (length_pyStrip_le _) ?_
        by_cases hc : cap < (sanitizeResponse u).length
        · rw [if_pos hc, List.length_append, List.length_take]
          simp only [List.length_cons, List.length_nil]
          omega
        · rw [if_neg hc]
          omega

/-- Witness for C4 (amended) at a concrete input: `"abcdef"` with cap 2
becomes `"ab..."`, of length 5 = 2 + 3. -/
theorem validate_truncation_bound_witness :
    validate_ai_response (some ("abcdef".toList)) 2
      = some (pyStrip ((sanitizeResponse ("abcdef".toList)).take 2
          ++ ['.', '.', '.'])) ∧
    ("ab...".toList).length ≤ 2 + 3 := by
  have h := validate_truncation_bound ("abcdef".toList) 2 (by decide)
  exact ⟨h.1, h.2 (some ("abcdef".toList)) ("ab...".toList) (by decide)⟩

theorem pyReplaceAux_single_eq_filter (c : Char) :
    ∀ (fuel : Nat) (l : List Char), l.length ≤ fuel →
      pyReplaceAux [c] [] fuel l = l.filter (fun x => !(x = c)) := by
  intro fuel
  induction fuel with
  | zero =>
    intro l hl
    have : l = [] := List.length_eq_zero.mp (Nat.le_zero.mp hl)
    subst this
    rfl
  | succ n ih =>
    intro l hl
    cases l with
    | nil => rfl
    | cons x xs =>
      simp only [List.length_cons] at hl
      simp only [pyReplaceAux]
      by_cases hx : startsWithL [c] (x :: xs) = true
      · rw [if_pos hx]
        have hcx : c = x := by
          simpa [startsWithL] using hx
        have hd : xs.drop ([c].length - 1) = xs := by simp
        rw [hd, List.nil_append, ih xs (by omega), List.filter_cons]
        simp [hcx.symm]
      · rw [if_neg hx]
        have hcx : ¬(x = c) := by
          intro e
          exact hx (by simp [startsWithL, e])
        rw [ih xs (by omega), List.filter_cons]
        simp [hcx]

theorem pyReplace_single_eq_filter (c : Char) (l : List Char) :
    pyReplace [c] [] l = l.filter (fun x => !(x = c)) :=
  pyReplaceAux_single_eq_filter c l.length l (le_refl _)

theorem filter_pyReplaceAux_double (c : Char) :
    ∀ (fuel : Nat) (l : List Char), l.length ≤ fuel →
      (pyReplaceAux [c, c] [] fuel l).filter (fun x => !(x = c))
        = l.filter (fun x => !(x = c)) := by
  intro fuel
  induction fuel with
  | zero =>
    intro l hl
    have : l = [] := List.length_eq_zero.mp (Nat.le_zero.mp hl)
    subst this
    rfl
  | succ n ih =>
    intro l hl
    cases l with
    | nil => rfl
    | cons x xs =>
      simp only [List.length_cons] at hl
      simp only [pyReplaceAux]
      by_cases hx : startsWithL [c, c] (x :: xs) = true
      · rw [if_pos hx]
        cases xs with
        | nil => exact absurd hx (by simp [startsWithL])
        | cons y ys =>
          simp only [List.length_cons] at hl
          have hc1 : c = x ∧ c = y := by
            simpa [startsWithL] using hx
          have hd : (y :: ys).drop ([c, c].length - 1) = ys := by simp
          rw [hd, List.nil_append, ih ys (by omega),
            List.filter_cons, List.filter_cons]
          simp [hc1.1.symm, hc1.2.symm]
      · rw [if_neg hx]
        rw [List.filter_cons, List.filter_cons, ih xs (by omega)]

theorem filter_pyReplace_double (c : Char) (l : List Char) :
    (pyReplace [c, c] [] l).filter (fun x => !(x = c))
      = l.filter (fun x => !(x = c)) :=
  filter_pyReplaceAux_double c l.length l (le_refl _)

theorem filter_star_backtick_eq_notMarker (l : List Char) :
    (l.filter (fun x => !(x = '*'))).filter (fun x => !(x = '\x60'))
      = l.filter notMarker := by
  induction l with
  | nil => rfl
  | cons c cs ih =>
    by_cases hs : c = '*'
    · simp [List.filter_cons, hs, notMarker, ih]
    · by_cases hb : c = '\x60'
      · simp [List.filter_cons, hs, hb, notMarker, ih]
      · simp [List.filter_cons, hs, hb, notMarker, ih]

/-- The three `replace` passes delete exactly the `*` and backtick
characters of the input, in order, altering nothing else: sanitization
is the filter keeping the non-marker characters. -/
theorem sanitizeResponse_eq_filter (s : List Char) :
    sanitizeResponse s = s.filter notMarker := by
  unfold sanitizeResponse
  rw [pyReplace_single_eq_filter '*' (pyReplace ['*', '*'] [] s)]
  rw [filter_pyReplace_double '*' s]
  rw [pyReplace_single_eq_filter '\x60' (s.filter (fun x => !(x = '*')))]
  exact filter_star_backtick_eq_notMarker s

/-- Claim C6: `validate_ai_response` maps `"**Salom** bu *test*"` to
`"Salom bu test"`; every produced output is free of the `*` and
backtick markdown markers (hence also of `**`); and for every non-empty
input the output is exactly the input with the marker characters
deleted (`List.filter notMarker` — all other text unaltered, in order),
then truncated with the ellipsis when over the cap, then stripped of
surrounding whitespace. -/
theorem validate_strips_markdown :
    validate_ai_response (some ("**Salom** bu *test*".toList)) 4000
      = some ("Salom bu test".toList) ∧
    (∀ s : List Char, sanitizeResponse s = s.filter notMarker) ∧
    (∀ (t : Option (List Char)) (cap : Nat) (out : List Char),
        validate_ai_response t cap = some out →
        '*' ∉ out ∧ '\x60' ∉ out) ∧
    (∀ (s : List Char) (cap : Nat), s ≠ [] →
        validate_ai_response (some s) cap
          = some (pyStrip
              (if cap < (s.filter notMarker).length then
                (s.filter notMarker).take cap ++ ['.', '.', '.']
              else s.filter notMarker))) := by
  refine ⟨by decide, sanitizeResponse_eq_filter, ?_, ?_⟩
  · intro t cap out hout
    cases t with
    | none => simp [validate_ai_response] at hout
    | some u =>
      by_cases hu : u = []
      · simp [validate_ai_response, hu] at hout
      · simp only [validate_ai_response] at hout
        rw [if_neg hu] at hout
        have he := Option.some.inj hout
        constructor
        all_goals intro hmem
        all_goals rw [← he] at hmem
        all_goals have h4 := mem_pyStrip hmem
        all_goals by_cases hc : cap < (sanitizeResponse u).length
        · rw [if_pos hc] at h4
          rcases List.mem_append.mp h4 with h5 | h5
          · exact star_not_mem_sanitizeResponse u
              ((List.take_sublist _ _).subset h5)
          · simp at h5
        · rw [if_neg hc] at h4
          exact star_not_mem_sanitizeResponse u h4
        · rw [if_pos hc] at h4
          rcases List.mem_append.mp h4 with h5 | h5
          · exact backtick_not_mem_sanitizeResponse u
              ((List.take_sublist _ _).subset h5)
          · simp at h5
        · rw [if_neg hc] at h4
          exact backtick_not_mem_sanitizeResponse u h4
  · intro s cap hs
    simp only [validate_ai_response]
    rw [if_neg hs, sanitizeResponse_eq_filter]

/-- Witness for C6 at concrete inputs: the sanitized example output
carries no markers, and the marker-bearing example input itself is
mapped to the strip-truncate-filter normal form. -/
theorem validate_strips_markdown_witness :
    sanitizeResponse ("a*b".toList)
      = ("a*b".toList).filter notMarker ∧
    ('*' ∉ ("Salom bu test".toList) ∧ '\x60' ∉ ("Salom bu test".toList)) ∧
    validate_ai_response (some ("**Salom** bu *test*".toList)) 4000
      = some (pyStrip
          (if 4000 < (("**Salom** bu *test*".toList).filter notMarker).length
            then (("**Salom** bu *test*".toList).filter notMarker).take 4000
              ++ ['.', '.', '.']
          else ("**Salom** bu *test*".toList).filter notMarker)) := by
  refine ⟨?_, ?_, ?_⟩
  · exact validate_strips_markdown.2.1 ("a*b".toList)
  · exact validate_strips_markdown.2.2.1 (some ("**Salom** bu *test*".toList))
      4000 ("Salom bu test".toList) (by decide)
  · exact validate_strips_markdown.2.2.2 ("**Salom** bu *test*".toList) 4000
      (by decide)

/-- The spec's example product without a media reference
(name line only, no `Rasm:` line). -/
def prodA : KnowledgeProduct :=
  ⟨"Mahsulot: Product A\nNarx: 100".toList, some ("Product A".toList)⟩

/-- The spec's example product carrying the media reference
`http://x.img` in its `Rasm:` line. -/
def prodB : KnowledgeProduct :=
  ⟨"Mahsulot: Product B\nRasm: http://x.img".toList, some ("Product B".toList)⟩

theorem scanProducts_inv (userWords : List (List Char)) :
    ∀ (ps : List KnowledgeProduct) (bs : Nat) (bm : Option Suggestion)
      (m : Suggestion),
      (scanProducts userWords ps bs bm).2 = some m →
      bm = some m ∨ ∃ p ∈ ps, ∃ ln,
        imageLineOf (splitOnChar '\x0a' p.content) = some ln ∧
        m.url = imageUrlOf ln := by
  intro ps
  induction ps with
  | nil => exact fun bs bm m h => Or.inl h
  | cons p ps ih =>
    intro bs bm m h
    simp only [scanProducts] at h
    cases himg : imageLineOf (splitOnChar '\x0a' p.content) with
    | some ln =>
      rw [himg] at h
      simp only at h
      by_cases hsc : bs < productScore userWords p
      · rw [if_pos hsc] at h
        rcases ih _ _ _ h with h2 | h2
        · right
          refine ⟨p, List.mem_cons_self p ps, ln, himg, ?_⟩
          rw [← Option.some.inj h2]
        · right
          rcases h2 with ⟨q, hq, ln2, hq1, hq2⟩
          exact ⟨q, List.mem_cons_of_mem p hq, ln2, hq1, hq2⟩
      · rw [if_neg hsc] at h
        rcases ih _ _ _ h with h2 | h2
        · exact Or.inl h2
        · right
          rcases h2 with ⟨q, hq, ln2, hq1, hq2⟩
          exact ⟨q, List.mem_cons_of_mem p hq, ln2, hq1, hq2⟩
    | none =>
      rw [himg] at h
      simp only at h
      rcases ih _ _ _ h with h2 | h2
      · exact Or.inl h2
      · right
        rcases h2 with ⟨q, hq, ln2, hq1, hq2⟩
        exact ⟨q, List.mem_cons_of_mem p hq, ln2, hq1, hq2⟩

/-- Claim C7: on the spec's example knowledge base — `Product A`
without media and `Product B` carrying `http://x.img` — the message
"Product B" yields exactly one suggestion whose url is the `Product B`
media reference; the message "salom", matching neither product, yields
none; and in general any returned suggestion is single, requires the
best score to reach the threshold 3, and takes its url from the `Rasm:`
line of one of the bot's product entries. -/
theorem product_image_best_match :
    find_relevant_product_images [prodA, prodB] ("Product B".toList)
      = [⟨"http://x.img".toList, "Product B".toList,
          '📦' :: ' ' :: ("Product B".toList)⟩] ∧
    find_relevant_product_images [prodA, prodB] ("salom".toList) = [] ∧
    (∀ (products : List KnowledgeProduct) (msg : List Char)
        (m : Suggestion) (rest : List Suggestion),
        find_relevant_product_images products msg = m :: rest →
        rest = [] ∧
        3 ≤ (scanProducts (userWordsOf msg) products 0 none).1 ∧
        ∃ p ∈ products, ∃ ln,
          imageLineOf (splitOnChar '\x0a' p.content) = some ln ∧
          m.url = imageUrlOf ln) := by
  refine ⟨by decide, by decide, ?_⟩
  intro products msg m rest h
  simp only [find_relevant_product_images] at h
  by_cases hp : products = []
  · rw [if_pos hp] at h
    cases h
  · rw [if_neg hp] at h
    cases hbm : (scanProducts (userWordsOf msg) products 0 none).2 with
    | none =>
      rw [hbm] at h
      simp only at h
      cases h
    | some m2 =>
      rw [hbm] at h
      simp only at h
      by_cases hsc : 3 ≤ (scanProducts (userWordsOf msg) products 0 none).1
      · rw [if_pos hsc] at h
        injection h with h1 h2
        refine ⟨h2.symm, hsc, ?_⟩
        rcases scanProducts_inv (userWordsOf msg) products 0 none m
            (h1 ▸ hbm) with hinv | hinv
        · cases hinv
        · exact hinv
      · rw [if_neg hsc] at h
        cases h

/-- Witness for C7's general conjunct at the spec's example: the
"Product B" result is single, clears the threshold, and draws its url
from `prodB`'s image line. -/
theorem product_image_best_match_witness :
    ([] : List Suggestion) = [] ∧
    3 ≤ (scanProducts (userWordsOf ("Product B".toList)) [prodA, prodB]
        0 none).1 ∧
    ∃ p ∈ [prodA, prodB], ∃ ln,
      imageLineOf (splitOnChar '\x0a' p.content) = some ln ∧
      (⟨"http://x.img".toList, "Product B".toList,
        '📦' :: ' ' :: ("Product B".toList)⟩ : Suggestion).url
        = imageUrlOf ln := by
  exact product_image_best_match.2.2 [prodA, prodB] ("Product B".toList)
    ⟨"http://x.img".toList, "Product B".toList,
      '📦' :: ' ' :: ("Product B".toList)⟩ [] (by decide)
